import Mathlib

/-!
Verification of the analytic core of the ProTrader UI Fortune page
(`ProTrader-UI/src/pages/Logs.tsx`): timestamp normalization, the
nearest-sample lookup over the wealth series, purchase/sale profit
reconciliation, the margin table row computation, and the tooltip
clustering and label placement pass.

JavaScript numbers are modelled by `JSNum`: a rational for every finite
value, plus the three non-finite values `NaN`, `Infinity` and
`-Infinity`.  Arithmetic on finite values is exact rational arithmetic
(float rounding and overflow are not modelled); the propagation rules
for the non-finite values follow IEEE-754 as implemented by JS.
-/

/-- Model of a JavaScript `number`: finite values are exact rationals. -/
inductive JSNum where
  | fin (q : ℚ)
  | nan
  | inf
  | negInf
deriving DecidableEq, Inhabited

namespace JSNum

/-- `Number.isFinite`. -/
def isFinite : JSNum → Bool
  | fin _ => true
  | _ => false

/-- The rational carried by a finite value (0 for the non-finite values). -/
def toQ : JSNum → ℚ
  | fin q => q
  | _ => 0

/-- JS subtraction `a - b` on the model. -/
def sub : JSNum → JSNum → JSNum
  | nan, _ => nan
  | _, nan => nan
  | inf, inf => nan
  | inf, _ => inf
  | negInf, negInf => nan
  | negInf, _ => negInf
  | fin _, inf => negInf
  | fin _, negInf => inf
  | fin a, fin b => fin (a - b)

/-- JS addition `a + b` on the model. -/
def add : JSNum → JSNum → JSNum
  | nan, _ => nan
  | _, nan => nan
  | inf, negInf => nan
  | negInf, inf => nan
  | inf, _ => inf
  | _, inf => inf
  | negInf, _ => negInf
  | _, negInf => negInf
  | fin a, fin b => fin (a + b)

/-- JS comparison `a >= b` (false whenever `NaN` is involved). -/
def jsGe : JSNum → JSNum → Bool
  | nan, _ => false
  | _, nan => false
  | inf, _ => true
  | fin _, inf => false
  | fin _, negInf => true
  | negInf, inf => false
  | negInf, negInf => true
  | negInf, fin _ => false
  | fin a, fin b => decide (a ≥ b)

theorem isFinite_sub_fin {a b : ℚ} : (sub (fin a) (fin b)).isFinite = true := rfl

theorem add_fin {a b : ℚ} : add (fin a) (fin b) = fin (a + b) := rfl

end JSNum

/-!
## Timestamp normalizer, numeric branch

`parseTimestamp` (Logs.tsx lines 30–72) first tries `Number(raw)`; when
that yields a non-NaN number it returns at lines 34–37:

    const numeric = Number(raw);
    if (!Number.isNaN(numeric)) {
      return numeric < 1e12 ? numeric * 1000 : numeric;
    }

`parseTimestampNumeric n` is that branch for an input string that fully
parses to the finite decimal number `n`.  The remaining string branch
delegates to the host `Date.parse` and is kept abstract: functions below
that need `parseTimestamp` on date strings take it as an explicit
`parseTs : String → JSNum` argument.
-/

/-- Numeric branch of `parseTimestamp` (Logs.tsx lines 34–37). -/
def parseTimestampNumeric (n : ℚ) : ℚ :=
  if n < 10 ^ 12 then n * 1000 else n

/-!
## Time-series store: nearest-sample lookup

`kamasSeries` entries (Logs.tsx lines 323–332).
-/

/-- One point of the wealth series (Logs.tsx line 94). -/
structure ChartPoint where
  x : ℚ
  y : ℚ
  rawTimestamp : String
deriving DecidableEq, Inhabited

/-- The `while (low < high)` binary-search loop of `findClosestAmount`
(Logs.tsx lines 355–362), written with explicit fuel; each iteration
shrinks `high - low`, so fuel `ser.length ≥ high - low` is always enough. -/
def bsearchGo (ser : List ChartPoint) (timestamp : ℚ) : ℕ → ℕ → ℕ → ℕ
  | 0, low, _ => low
  | fuel + 1, low, high =>
    if low < high then
      let mid := (low + high) / 2
      if (ser.getD mid default).x < timestamp then
        bsearchGo ser timestamp fuel (mid + 1) high
      else
        bsearchGo ser timestamp fuel low mid
    else low

/-- `findClosestAmount` (Logs.tsx lines 350–381): binary-search the
insertion point for `timestamp` in the sorted series, then pick from the
sample at that point and the one immediately before it the one with the
smaller absolute instant difference.  The sample at the insertion point
is pushed first, and a candidate only replaces the running best when its
difference is strictly smaller. -/
def findClosestAmount (kamasSeries : List ChartPoint) (timestamp : ℚ) : Option ℚ :=
  if kamasSeries.length = 0 then none
  else
    let low := bsearchGo kamasSeries timestamp kamasSeries.length 0 kamasSeries.length
    let candidates : List ChartPoint :=
      (if low < kamasSeries.length then [kamasSeries.getD low default] else []) ++
      (if 0 < low then [kamasSeries.getD (low - 1) default] else [])
    match candidates with
    | [] => some ((kamasSeries.getD 0 default).y)
    | c :: cs =>
      let best := cs.foldl
        (fun acc cand =>
          if |cand.x - timestamp| < acc.2 then (cand, |cand.x - timestamp|) else acc)
        (c, |c.x - timestamp|)
      some best.1.y

/-!
## Margin table row (suggested purchase price and estimated profit)

Embeds the per-row computation of the margin table (Logs.tsx lines
746–755):

    if (cfg.marginType === "percent") {
      purchase = median != null ? median * (1 - cfg.value / 100) : null;
    } else {
      purchase = cfg.value;
    }
    const profit = median != null && purchase != null ? median - purchase : null;
-/

/-- `margin_type` of a margin setting. -/
inductive MarginType where
  | percent
  | absolute
deriving DecidableEq

/-- Suggested purchase price of a margin table row (Logs.tsx lines 748–753). -/
def suggestPrice (marginType : MarginType) (value : ℚ) (median : Option ℚ) : Option ℚ :=
  if marginType = MarginType.percent then
    match median with
    | some m => some (m * (1 - value / 100))
    | none => none
  else
    some value

/-- Estimated profit of a margin table row (Logs.tsx lines 754–755). -/
def rowProfit (median purchase : Option ℚ) : Option ℚ :=
  match median, purchase with
  | some m, some p => some (m - p)
  | _, _ => none

/-!
## Purchase events and sale reconciliation
-/

/-- A purchase event as consumed by the Fortune page (fields of
`PurchaseEvent` used by `computeSaleStats` and `recomputeTooltips`).
`datetime` and `saleDatetime` are kept as raw strings, as in the source;
they are parsed on use via a supplied `parseTs`. -/
structure PurchaseEvent where
  id : String
  datetime : String
  saleDatetime : Option String
  saleTotalPrice : Option JSNum
  totalPrice : JSNum
deriving DecidableEq, Inhabited

/-- `purchase.datetime ? parseTimestamp(purchase.datetime) : Number.NaN`
(Logs.tsx line 274; an empty string is falsy in JS). -/
def purchaseInstant (parseTs : String → JSNum) (p : PurchaseEvent) : JSNum :=
  if p.datetime = "" then JSNum.nan else parseTs p.datetime

/-- `purchase.saleDatetime ? parseTimestamp(purchase.saleDatetime) : null`
(Logs.tsx line 275). -/
def saleInstant (parseTs : String → JSNum) (p : PurchaseEvent) : Option JSNum :=
  match p.saleDatetime with
  | none => none
  | some s => if s = "" then none else some (parseTs s)

/-- `computeSaleStats` (Logs.tsx lines 272–296): reconcile a purchase with
its optional sale.  Returns `(saleTotal, profit)`. -/
def computeSaleStats (parseTs : String → JSNum) (purchase : PurchaseEvent) :
    Option JSNum × Option JSNum :=
  let purchaseTimestamp := purchaseInstant parseTs purchase
  let saleTimestamp := saleInstant parseTs purchase
  let hasPurchaseTimestamp := purchaseTimestamp.isFinite
  let hasSaleTimestamp :=
    match saleTimestamp with
    | some t => t.isFinite
    | none => false
  let saleIsChronologicalMatch :=
    if hasSaleTimestamp && hasPurchaseTimestamp then
      (saleTimestamp.getD JSNum.nan).jsGe purchaseTimestamp
    else true
  let rawSaleTotal : Option JSNum :=
    if saleIsChronologicalMatch then purchase.saleTotalPrice else none
  let saleTotal : Option JSNum :=
    if saleIsChronologicalMatch then
      match rawSaleTotal with
      | some v => if v.isFinite then some v else none
      | none => none
    else none
  let profit : Option JSNum :=
    match saleTotal with
    | some st =>
      let delta := st.sub purchase.totalPrice
      if delta.isFinite then some delta else none
    | none => none
  (saleTotal, profit)

/-- `totalProfit` (Logs.tsx lines 339–348): sum the non-null profits over
the purchase list. -/
def totalProfit (parseTs : String → JSNum) (purchases : List PurchaseEvent) : JSNum :=
  purchases.foldl
    (fun sum purchase =>
      match (computeSaleStats parseTs purchase).2 with
      | some profit => sum.add profit
      | none => sum)
    (JSNum.fin 0)

/-- Chronological validity as the spec words it: when both the purchase
and the sale timestamp parse to finite instants, the sale must be at or
after the purchase; when either fails to parse (or the sale date is
absent), validity cannot be disproved and is assumed. -/
def chronValid (parseTs : String → JSNum) (p : PurchaseEvent) : Bool :=
  match saleInstant parseTs p, purchaseInstant parseTs p with
  | some (JSNum.fin s), JSNum.fin q => decide (s ≥ q)
  | _, _ => true

/-!
## Event clustering and label placement (`recomputeTooltips`)

Logs.tsx lines 383–481.  The source appends groups at the tail of the
`grouped` array and reads `grouped[grouped.length - 1]`; here the
accumulator keeps the open group at the head and the list is reversed at
the end, which yields the same chronological group list.  The source
hardcodes `thresholdPx = 56`; the sweep is parameterized by the
threshold and instantiated at 56 in `recomputeTooltips`.
-/

/-- A surviving event with its projected screen position
(the `positions` entries of Logs.tsx line 402). -/
structure Position where
  x : ℚ
  y : ℚ
  purchase : PurchaseEvent
deriving DecidableEq, Inhabited

/-- `GroupAccumulator` (Logs.tsx lines 429–435). -/
structure GroupAccumulator where
  xSum : ℚ
  ySum : ℚ
  count : ℕ
  yMin : ℚ
  purchases : List PurchaseEvent
deriving DecidableEq, Inhabited

/-- One iteration of the clustering sweep (Logs.tsx lines 438–457), with
the open group at the head of the accumulator. -/
def sweepStep (thresholdPx : ℚ) (grouped : List GroupAccumulator) (pos : Position) :
    List GroupAccumulator :=
  match grouped with
  | [] => [⟨pos.x, pos.y, 1, pos.y, [pos.purchase]⟩]
  | last :: rest =>
    let lastCenter := last.xSum / (last.count : ℚ)
    if |pos.x - lastCenter| > thresholdPx then
      ⟨pos.x, pos.y, 1, pos.y, [pos.purchase]⟩ :: last :: rest
    else
      ⟨last.xSum + pos.x, last.ySum + pos.y, last.count + 1,
        if pos.y < last.yMin then pos.y else last.yMin,
        last.purchases ++ [pos.purchase]⟩ :: rest

/-- The full left-to-right clustering sweep over the sorted positions,
groups in chronological order. -/
def sweepGroups (thresholdPx : ℚ) (positions : List Position) : List GroupAccumulator :=
  (positions.foldl (sweepStep thresholdPx) []).reverse

/-- Running average of the projected x of a list of positions. -/
def avgX (ps : List Position) : ℚ := (ps.map Position.x).sum / (ps.length : ℚ)

/-- The minimum projected y of a group's positions, tracked as in the
source (`yMin` starts at the first member's y and is lowered on join). -/
def yMinOf : List Position → ℚ
  | [] => 0
  | h :: rest => rest.foldl (fun m p => if p.y < m then p.y else m) h.y

/-- The group accumulator a list of member positions gives rise to. -/
def grpOf (ps : List Position) : GroupAccumulator :=
  { xSum := (ps.map Position.x).sum
    ySum := (ps.map Position.y).sum
    count := ps.length
    yMin := yMinOf ps
    purchases := ps.map Position.purchase }

/-- Reference form of the sweep that keeps whole member lists: `cur` is
the open group, `rest` the positions still to process. -/
def sweepRec (thresholdPx : ℚ) (cur : List Position) : List Position → List (List Position)
  | [] => [cur]
  | p :: rest =>
    if |p.x - avgX cur| ≤ thresholdPx then sweepRec thresholdPx (cur ++ [p]) rest
    else cur :: sweepRec thresholdPx [p] rest

/-- The partition of the position list induced by the sweep. -/
def partitionSweep (thresholdPx : ℚ) : List Position → List (List Position)
  | [] => []
  | h :: rest => sweepRec thresholdPx [h] rest

/-- Every position after the prefix `pre` is within the threshold of the
running average at its insertion time. -/
def chainOk (thresholdPx : ℚ) (pre : List Position) : List Position → Bool
  | [] => true
  | p :: rest =>
    (if |p.x - avgX pre| ≤ thresholdPx then true else false) &&
      chainOk thresholdPx (pre ++ [p]) rest

/-- A group is internally coherent: each member after the first joined
within the threshold of the running average of the earlier members. -/
def groupOk (thresholdPx : ℚ) : List Position → Bool
  | [] => true
  | h :: rest => chainOk thresholdPx [h] rest

/-- First member's x of a group. -/
def headX (ps : List Position) : ℚ := (ps.headD default).x

/-- Between chronologically adjacent groups, the later group's first
member was beyond the threshold of the earlier group's average. -/
def boundariesOk (thresholdPx : ℚ) : List (List Position) → Bool
  | a :: b :: rest =>
    (if |headX b - avgX a| > thresholdPx then true else false) &&
      boundariesOk thresholdPx (b :: rest)
  | _ => true

/-- The chart plotting area (`chart.chartArea`). -/
structure Area where
  left : ℚ
  right : ℚ
  top : ℚ
  bottom : ℚ
deriving DecidableEq, Inhabited

/-- The filtering and projection pass of `recomputeTooltips`
(Logs.tsx lines 402–419): keep the purchases with a parseable instant
inside the scale's min/max whose projected x and y are finite. -/
def positionsOf (parseTs : String → JSNum) (kamasSeries : List ChartPoint)
    (xScale yScale : ℚ → JSNum) (minB maxB : JSNum)
    (purchases : List PurchaseEvent) : List Position :=
  purchases.filterMap fun purchase =>
    let ts := parseTs purchase.datetime
    if ts.isFinite then
      let tq := ts.toQ
      if minB.isFinite ∧ tq < minB.toQ then none
      else if maxB.isFinite ∧ tq > maxB.toQ then none
      else
        let x := xScale tq
        if x.isFinite then
          let amount := findClosestAmount kamasSeries tq
          let fallbackAmount := (kamasSeries.getLast?.map ChartPoint.y).getD 0
          let yValue := amount.getD fallbackAmount
          let y := yScale yValue
          if y.isFinite then some ⟨x.toQ, y.toQ, purchase⟩ else none
        else none
    else none

/-- A tooltip group as produced for rendering
(`PurchaseTooltipGroup`, Logs.tsx lines 96–103). -/
structure PurchaseTooltipGroup where
  id : String
  anchorX : ℚ
  anchorY : ℚ
  tooltipLeft : ℚ
  tooltipTop : ℚ
  purchases : List PurchaseEvent
deriving DecidableEq, Inhabited

/-- Label placement for one closed group (Logs.tsx lines 459–478). -/
def mkTooltip (area : Area) (group : GroupAccumulator) : PurchaseTooltipGroup :=
  let avgXv := group.xSum / (group.count : ℚ)
  let avgYv := group.ySum / (group.count : ℚ)
  let estimatedHeight : ℚ := (group.purchases.length : ℚ) * 22 + 18
  let tooltipLeft := min (max avgXv (area.left + 16)) (area.right - 16)
  let topBase := group.yMin - estimatedHeight
  let tooltipTop := min (max topBase (area.top + 8)) (area.bottom - estimatedHeight - 8)
  let idStr := String.intercalate "|" (group.purchases.map fun p => p.id ++ "-" ++ p.datetime)
  let idv := if idStr = "" then toString avgXv else idStr
  ⟨idv, avgXv, avgYv, tooltipLeft, tooltipTop, group.purchases⟩

/-- The pixel threshold hardcoded at Logs.tsx line 428. -/
def thresholdPx : ℚ := 56

/-- `recomputeTooltips` (Logs.tsx lines 383–481), given the chart scales
and area as data: filter and project the purchases, sort by projected x,
sweep into groups, and place one label per group. -/
def recomputeTooltips (parseTs : String → JSNum) (kamasSeries : List ChartPoint)
    (xScale yScale : ℚ → JSNum) (minB maxB : JSNum) (area : Area)
    (purchases : List PurchaseEvent) : List PurchaseTooltipGroup :=
  if purchases = [] ∨ kamasSeries = [] then []
  else
    let positions := positionsOf parseTs kamasSeries xScale yScale minB maxB purchases
    if positions = [] then []
    else
      let sorted := positions.mergeSort fun a b => a.x ≤ b.x
      let grouped := sweepGroups thresholdPx sorted
      grouped.map (mkTooltip area)

/-!
## Helper lemmas: binary search
-/

/-- In a series sorted ascending by `x`, `getD` is monotone in the index. -/
theorem sorted_getD_mono {ser : List ChartPoint}
    (hs : List.Pairwise (fun a b => a.x ≤ b.x) ser) {i j : ℕ}
    (hij : i ≤ j) (hj : j < ser.length) :
    (ser.getD i default).x ≤ (ser.getD j default).x := by
  rcases Nat.lt_or_ge i j with hlt | hge
  · have hi : i < ser.length := Nat.lt_trans hlt hj
    rw [List.getD_eq_getElem ser default hi, List.getD_eq_getElem ser default hj]
    exact (List.pairwise_iff_get.mp hs) ⟨i, hi⟩ ⟨j, hj⟩ hlt
  · have : i = j := Nat.le_antisymm hij hge
    subst this
    exact le_refl _

/-- Correctness of the binary-search loop: starting from a bracket
`[low, high]` whose outside is already classified, with enough fuel, the
result `r` is the insertion point: everything strictly below `r` is
below `t`, everything from `r` on is not. -/
theorem bsearchGo_spec (ser : List ChartPoint) (t : ℚ)
    (hs : List.Pairwise (fun a b => a.x ≤ b.x) ser) :
    ∀ (fuel low high : ℕ), high ≤ ser.length → low ≤ high → high - low ≤ fuel →
    (∀ i, i < low → (ser.getD i default).x < t) →
    (∀ i, high ≤ i → i < ser.length → ¬ (ser.getD i default).x < t) →
    low ≤ bsearchGo ser t fuel low high ∧
      bsearchGo ser t fuel low high ≤ high ∧
      (∀ i, i < bsearchGo ser t fuel low high → (ser.getD i default).x < t) ∧
      (∀ i, bsearchGo ser t fuel low high ≤ i → i < ser.length →
        ¬ (ser.getD i default).x < t) := by
  intro fuel
  induction fuel with
  | zero =>
    intro low high hhigh hlh hfuel hlo hhi
    have : low = high := by omega
    subst this
    exact ⟨le_refl _, le_refl _, hlo, hhi⟩
  | succ fuel ih =>
    intro low high hhigh hlh hfuel hlo hhi
    simp only [bsearchGo]
    by_cases hcmp : low < high
    · rw [if_pos hcmp]
      have hmidlo : low ≤ (low + high) / 2 := by omega
      have hmidhi : (low + high) / 2 < high := by omega
      have hmidlen : (low + high) / 2 < ser.length := by omega
      by_cases hx : (ser.getD ((low + high) / 2) default).x < t
      · rw [if_pos hx]
        have hlo' : ∀ i, i < (low + high) / 2 + 1 → (ser.getD i default).x < t := by
          intro i hi
          exact lt_of_le_of_lt (sorted_getD_mono hs (by omega) hmidlen) hx
        have h := ih ((low + high) / 2 + 1) high (by omega) (by omega) (by omega) hlo' hhi
        refine ⟨by omega, h.2.1, h.2.2.1, h.2.2.2⟩
      · rw [if_neg hx]
        have hhi' : ∀ i, (low + high) / 2 ≤ i → i < ser.length →
            ¬ (ser.getD i default).x < t := by
          intro i hmi hilen hcon
          exact hx (lt_of_le_of_lt (sorted_getD_mono hs hmi hilen) hcon)
        have h := ih low ((low + high) / 2) (by omega) (by omega) (by omega) hlo hhi'
        refine ⟨h.1, by omega, h.2.2.1, h.2.2.2⟩
    · rw [if_neg hcmp]
      have : low = high := by omega
      subst this
      exact ⟨le_refl _, le_refl _, hlo, hhi⟩

/-- Helper: the full nearest-value characterization of `findClosestAmount`
on a sorted non-empty series.  `ip` is the insertion point of `t`; the
result is the candidate before/at `ip` with the strictly smaller absolute
difference, the candidate at `ip` winning ties. -/
theorem findClosestAmount_characterization (ser : List ChartPoint) (t : ℚ)
    (hs : List.Pairwise (fun a b => a.x ≤ b.x) ser) (hne : ser ≠ []) :
    ∃ ip, ip ≤ ser.length ∧
      (∀ i, i < ip → (ser.getD i default).x < t) ∧
      (∀ i, ip ≤ i → i < ser.length → t ≤ (ser.getD i default).x) ∧
      findClosestAmount ser t =
        some (if ip = ser.length then (ser.getD (ip - 1) default).y
          else if ip = 0 then (ser.getD ip default).y
          else if |(ser.getD (ip - 1) default).x - t| < |(ser.getD ip default).x - t| then
            (ser.getD (ip - 1) default).y
          else (ser.getD ip default).y) := by
  have hlen : ¬ ser.length = 0 := by
    intro h
    exact hne (List.length_eq_zero.mp h)
  have h := bsearchGo_spec ser t hs ser.length 0 ser.length (le_refl _) (Nat.zero_le _)
    (by omega) (fun i hi => absurd hi (by omega)) (fun i h1 h2 => absurd h1 (by omega))
  unfold findClosestAmount
  rw [if_neg hlen]
  set r := bsearchGo ser t ser.length 0 ser.length with hr
  refine ⟨r, h.2.1, h.2.2.1, fun i h1 h2 => not_lt.mp (h.2.2.2 i h1 h2), ?_⟩
  by_cases hrl : r < ser.length
  · by_cases hr0 : r = 0
    · simp only [if_pos hrl, if_neg (show ¬ 0 < r by omega), List.append_nil,
        List.foldl_nil, if_neg (show ¬ r = ser.length by omega), if_pos hr0]
    · simp only [if_pos hrl, if_pos (show 0 < r by omega), List.cons_append,
        List.nil_append, List.foldl_cons, List.foldl_nil,
        if_neg (show ¬ r = ser.length by omega), if_neg hr0]
      by_cases hcl : |(ser.getD (r - 1) default).x - t| < |(ser.getD r default).x - t|
      · rw [if_pos hcl, if_pos hcl]
      · rw [if_neg hcl, if_neg hcl]
  · have hreq : r = ser.length := by omega
    simp only [if_neg (show ¬ r < ser.length by omega),
      if_pos (show 0 < r by omega), List.nil_append, List.foldl_nil, if_pos hreq]

/-!
## Helper lemmas: the clustering sweep as a partition
-/

theorem grpOf_singleton (p : Position) :
    grpOf [p] = ⟨p.x, p.y, 1, p.y, [p.purchase]⟩ := by
  simp [grpOf, yMinOf]

theorem grpOf_append (cur : List Position) (p : Position) (hne : cur ≠ []) :
    grpOf (cur ++ [p]) =
      ⟨(grpOf cur).xSum + p.x, (grpOf cur).ySum + p.y, (grpOf cur).count + 1,
        if p.y < (grpOf cur).yMin then p.y else (grpOf cur).yMin,
        (grpOf cur).purchases ++ [p.purchase]⟩ := by
  obtain ⟨h, rest, rfl⟩ := List.exists_cons_of_ne_nil hne
  simp [grpOf, yMinOf, List.sum_append, List.foldl_append]
  exact ⟨by ring, by ring⟩

theorem avgX_grpOf (cur : List Position) :
    (grpOf cur).xSum / ((grpOf cur).count : ℚ) = avgX cur := rfl

theorem sweepRec_nil (t : ℚ) (cur : List Position) : sweepRec t cur [] = [cur] := rfl

theorem sweepRec_cons (t : ℚ) (cur : List Position) (p : Position) (l : List Position) :
    sweepRec t cur (p :: l) =
      if |p.x - avgX cur| ≤ t then sweepRec t (cur ++ [p]) l
      else cur :: sweepRec t [p] l := rfl

/-- The source fold over `GroupAccumulator`s is the image under `grpOf`
of the member-list sweep `sweepRec`. -/
theorem foldl_sweepStep_eq (t : ℚ) :
    ∀ (l cur : List Position) (done : List (List Position)), cur ≠ [] →
    (List.foldl (sweepStep t) (grpOf cur :: done.map grpOf) l).reverse =
      (done.reverse ++ sweepRec t cur l).map grpOf := by
  intro l
  induction l with
  | nil =>
    intro cur done hne
    simp [sweepRec, List.map_append, List.map_reverse]
  | cons p l ih =>
    intro cur done hne
    simp only [List.foldl_cons]
    by_cases hj : |p.x - avgX cur| ≤ t
    · have hstep : sweepStep t (grpOf cur :: done.map grpOf) p =
          grpOf (cur ++ [p]) :: done.map grpOf := by
        simp only [sweepStep, avgX_grpOf]
        rw [if_neg (not_lt.mpr hj), grpOf_append cur p hne]
      rw [hstep, ih (cur ++ [p]) done (by simp), sweepRec_cons, if_pos hj]
    · have hstep : sweepStep t (grpOf cur :: done.map grpOf) p =
          grpOf [p] :: (cur :: done).map grpOf := by
        simp only [sweepStep, avgX_grpOf]
        rw [if_pos (not_le.mp hj), grpOf_singleton]
        rfl
      rw [hstep, ih [p] (cur :: done) (by simp), sweepRec_cons, if_neg hj]
      simp [List.append_assoc]

theorem sweepGroups_eq_partition (t : ℚ) (l : List Position) :
    sweepGroups t l = (partitionSweep t l).map grpOf := by
  cases l with
  | nil => rfl
  | cons h rest =>
    unfold sweepGroups partitionSweep
    simp only [List.foldl_cons]
    have h1 : sweepStep t [] h = grpOf [h] :: ([] : List (List Position)).map grpOf := by
      simp [sweepStep, grpOf_singleton]
    rw [h1, foldl_sweepStep_eq t rest [h] [] (by simp)]
    simp

/-- The sweep partition flattens back to the input list. -/
theorem sweepRec_flatten (t : ℚ) :
    ∀ (l cur : List Position), (sweepRec t cur l).flatten = cur ++ l := by
  intro l
  induction l with
  | nil => intro cur; simp [sweepRec]
  | cons p l ih =>
    intro cur
    unfold sweepRec
    by_cases hj : |p.x - avgX cur| ≤ t
    · rw [if_pos hj, ih (cur ++ [p])]
      simp
    · rw [if_neg hj]
      simp [ih [p]]

/-- Every group the sweep produces is non-empty. -/
theorem sweepRec_mem_ne_nil (t : ℚ) :
    ∀ (l cur : List Position), cur ≠ [] →
    ∀ g ∈ sweepRec t cur l, g ≠ [] := by
  intro l
  induction l with
  | nil =>
    intro cur hne g hg
    simp only [sweepRec, List.mem_singleton] at hg
    exact hg ▸ hne
  | cons p l ih =>
    intro cur hne g hg
    unfold sweepRec at hg
    by_cases hj : |p.x - avgX cur| ≤ t
    · rw [if_pos hj] at hg
      exact ih (cur ++ [p]) (by simp) g hg
    · rw [if_neg hj] at hg
      rcases List.mem_cons.mp hg with rfl | hg
      · exact hne
      · exact ih [p] (by simp) g hg

theorem chainOk_append (t : ℚ) :
    ∀ (l pre : List Position) (p : Position),
    chainOk t pre l = true → |p.x - avgX (pre ++ l)| ≤ t →
    chainOk t pre (l ++ [p]) = true := by
  intro l
  induction l with
  | nil =>
    intro pre p _ hle
    rw [List.append_nil] at hle
    simp [chainOk, hle]
  | cons q l ih =>
    intro pre p h hle
    simp only [chainOk, Bool.and_eq_true] at h
    simp only [List.cons_append, chainOk, Bool.and_eq_true]
    refine ⟨h.1, ih (pre ++ [q]) p h.2 ?_⟩
    have : (pre ++ [q]) ++ l = pre ++ q :: l := by simp
    rw [this]
    exact hle

theorem groupOk_append (t : ℚ) (cur : List Position) (p : Position)
    (hne : cur ≠ []) (h : groupOk t cur = true) (hle : |p.x - avgX cur| ≤ t) :
    groupOk t (cur ++ [p]) = true := by
  obtain ⟨h0, rest, rfl⟩ := List.exists_cons_of_ne_nil hne
  simp only [groupOk] at h
  simp only [List.cons_append, groupOk]
  exact chainOk_append t rest [h0] p h hle

/-- Every group the sweep produces is internally coherent. -/
theorem sweepRec_groupOk (t : ℚ) :
    ∀ (l cur : List Position), cur ≠ [] → groupOk t cur = true →
    ∀ g ∈ sweepRec t cur l, groupOk t g = true := by
  intro l
  induction l with
  | nil =>
    intro cur hne hok g hg
    simp only [sweepRec, List.mem_singleton] at hg
    exact hg ▸ hok
  | cons p l ih =>
    intro cur hne hok g hg
    unfold sweepRec at hg
    by_cases hj : |p.x - avgX cur| ≤ t
    · rw [if_pos hj] at hg
      exact ih (cur ++ [p]) (by simp) (groupOk_append t cur p hne hok hj) g hg
    · rw [if_neg hj] at hg
      rcases List.mem_cons.mp hg with rfl | hg
      · exact hok
      · exact ih [p] (by simp) rfl g hg

/-- The sweep result is a non-empty list whose first group starts with
the first member of the open group. -/
theorem sweepRec_head (t : ℚ) :
    ∀ (l cur : List Position), cur ≠ [] →
    ∃ g rest, sweepRec t cur l = g :: rest ∧ headX g = headX cur := by
  intro l
  induction l with
  | nil =>
    intro cur _
    exact ⟨cur, [], rfl, rfl⟩
  | cons p l ih =>
    intro cur hne
    unfold sweepRec
    by_cases hj : |p.x - avgX cur| ≤ t
    · rw [if_pos hj]
      obtain ⟨g, rest, heq, hx⟩ := ih (cur ++ [p]) (by simp)
      refine ⟨g, rest, heq, hx.trans ?_⟩
      obtain ⟨h0, rest0, rfl⟩ := List.exists_cons_of_ne_nil hne
      rfl
    · rw [if_neg hj]
      exact ⟨cur, sweepRec t [p] l, rfl, rfl⟩

/-- Adjacent groups in the sweep result satisfy the boundary condition:
the later group's first member was beyond the threshold of the earlier
group's running average. -/
theorem sweepRec_boundariesOk (t : ℚ) :
    ∀ (l cur : List Position), cur ≠ [] →
    boundariesOk t (sweepRec t cur l) = true := by
  intro l
  induction l with
  | nil => intro cur _; rfl
  | cons p l ih =>
    intro cur hne
    unfold sweepRec
    by_cases hj : |p.x - avgX cur| ≤ t
    · rw [if_pos hj]
      exact ih (cur ++ [p]) (by simp)
    · rw [if_neg hj]
      obtain ⟨g, rest, heq, hx⟩ := sweepRec_head t l [p] (by simp)
      rw [heq]
      simp only [boundariesOk, Bool.and_eq_true]
      constructor
      · rw [hx]
        simp [headX, not_le.mp hj]
      · rw [← heq]
        exact ih [p] (by simp)

/-- Combined partition view of the sweep over any position list. -/
theorem sweepGroups_partition_spec (t : ℚ) (l : List Position) :
    sweepGroups t l = (partitionSweep t l).map grpOf ∧
      (partitionSweep t l).flatten = l ∧
      (∀ g ∈ partitionSweep t l, g ≠ [] ∧ groupOk t g = true) ∧
      boundariesOk t (partitionSweep t l) = true := by
  refine ⟨sweepGroups_eq_partition t l, ?_, ?_, ?_⟩
  · cases l with
    | nil => rfl
    | cons h rest => exact sweepRec_flatten t rest [h]
  · cases l with
    | nil => intro g hg; simp [partitionSweep] at hg
    | cons h rest =>
      intro g hg
      exact ⟨sweepRec_mem_ne_nil t rest [h] (by simp) g hg,
        sweepRec_groupOk t rest [h] (by simp) rfl g hg⟩
  · cases l with
    | nil => rfl
    | cons h rest => exact sweepRec_boundariesOk t rest [h] (by simp)

/-!
## Helper lemmas: sale reconciliation
-/

/-- The internal chronological test of `computeSaleStats` agrees with
`chronValid`. -/
theorem saleChronologicalMatch_eq (parseTs : String → JSNum) (p : PurchaseEvent) :
    (if (match saleInstant parseTs p with
          | some t => t.isFinite
          | none => false) && (purchaseInstant parseTs p).isFinite then
        ((saleInstant parseTs p).getD JSNum.nan).jsGe (purchaseInstant parseTs p)
      else true) = chronValid parseTs p := by
  unfold chronValid
  rcases saleInstant parseTs p with _ | (s | _ | _ | _) <;>
    rcases purchaseInstant parseTs p with q | _ | _ | _ <;> rfl

/-- Full characterization of `computeSaleStats`: the sale total is the
sale price exactly when the sale is chronologically valid and the sale
price is finite; the profit is the difference exactly when additionally
that difference is finite (in particular, whenever `totalPrice` is not
finite the profit is null even though the sale total is not). -/
theorem computeSaleStats_characterization (parseTs : String → JSNum) (p : PurchaseEvent) :
    computeSaleStats parseTs p =
      (if chronValid parseTs p then
        match p.saleTotalPrice with
        | some (JSNum.fin v) =>
          (some (JSNum.fin v),
            if ((JSNum.fin v).sub p.totalPrice).isFinite then
              some ((JSNum.fin v).sub p.totalPrice)
            else none)
        | _ => (none, none)
      else (none, none)) := by
  unfold computeSaleStats
  simp only []
  rw [saleChronologicalMatch_eq]
  cases hc : chronValid parseTs p with
  | false => simp [hc]
  | true =>
    rcases hst : p.saleTotalPrice with _ | (v | _ | _ | _) <;>
      simp [hc, hst, JSNum.isFinite]

/-- The profit component is computed from the sale-total component:
null sale total forces null profit, and a non-null profit is the finite
difference of the sale total and the purchase total price. -/
theorem computeSaleStats_profit_eq (parseTs : String → JSNum) (p : PurchaseEvent) :
    (computeSaleStats parseTs p).2 =
      (match (computeSaleStats parseTs p).1 with
      | some st =>
        if (st.sub p.totalPrice).isFinite then some (st.sub p.totalPrice) else none
      | none => none) := rfl

/-- A non-null profit is always a finite value. -/
theorem profit_isFinite (parseTs : String → JSNum) (p : PurchaseEvent) (j : JSNum)
    (h : (computeSaleStats parseTs p).2 = some j) : j.isFinite = true := by
  rw [computeSaleStats_profit_eq] at h
  cases h1 : (computeSaleStats parseTs p).1 with
  | none => rw [h1] at h; cases h
  | some st =>
    rw [h1] at h
    by_cases hf : (st.sub p.totalPrice).isFinite = true
    · simp only [hf, if_true] at h
      cases h
      exact hf
    · simp only [hf, if_false, Bool.false_eq_true] at h
      cases h

/-- `totalProfit` is the rational sum of the non-null profits. -/
theorem totalProfit_eq_sum (parseTs : String → JSNum) (purchases : List PurchaseEvent) :
    totalProfit parseTs purchases =
      JSNum.fin
        (((purchases.filterMap fun p => (computeSaleStats parseTs p).2).map JSNum.toQ).sum) := by
  suffices h : ∀ (l : List PurchaseEvent) (q : ℚ),
      l.foldl
        (fun sum purchase =>
          match (computeSaleStats parseTs purchase).2 with
          | some profit => sum.add profit
          | none => sum) (JSNum.fin q) =
      JSNum.fin (q + ((l.filterMap fun p => (computeSaleStats parseTs p).2).map JSNum.toQ).sum) by
    have := h purchases 0
    simpa [totalProfit] using this
  intro l
  induction l with
  | nil => intro q; simp
  | cons p l ih =>
    intro q
    simp only [List.foldl_cons, List.filterMap_cons]
    cases hp : (computeSaleStats parseTs p).2 with
    | none => simpa using ih q
    | some j =>
      have hf := profit_isFinite parseTs p j hp
      rcases j with w | _ | _ | _
      · dsimp only
        rw [JSNum.add_fin, ih (q + w)]
        simp only [List.map_cons, List.sum_cons, JSNum.toQ]
        congr 1
        ring
      · cases hf
      · cases hf
      · cases hf

/-!
## Claims
-/

/-- C1, counterexample: on the series `[(0,1000),(100,1200)]` the query at
the exact midpoint `t = 50` is equidistant from both samples, and the code
returns `1200` — the amount of the later sample (the one at the insertion
point) — not `1000` as the claim's tie rule states. -/
theorem claim1_tie_counterexample :
    findClosestAmount [⟨0, 1000, "a"⟩, ⟨100, 1200, "b"⟩] 50 = some 1200 ∧
      |(0 : ℚ) - 50| = |(100 : ℚ) - 50| ∧ (1200 : ℚ) ≠ 1000 := by
  refine ⟨by norm_num [findClosestAmount, bsearchGo], by norm_num, by norm_num⟩

/-- C1 (amended): for every non-empty wealth series sorted ascending by
instant, the nearest-value query binary-searches the insertion point `ip`
of the query instant (everything before `ip` is strictly below the query,
everything from `ip` on is at or above it), examines the sample
immediately before and at that point, and returns the amount of whichever
candidate has the strictly smaller absolute instant difference; when the
two absolute differences are equal, the sample at the insertion point —
the later, higher-index one — wins, not the earlier one. -/
theorem claim1_nearest_value_query (ser : List ChartPoint) (t : ℚ)
    (hs : List.Pairwise (fun a b => a.x ≤ b.x) ser) (hne : ser ≠ []) :
    ∃ ip, ip ≤ ser.length ∧
      (∀ i, i < ip → (ser.getD i default).x < t) ∧
      (∀ i, ip ≤ i → i < ser.length → t ≤ (ser.getD i default).x) ∧
      findClosestAmount ser t =
        some (if ip = ser.length then (ser.getD (ip - 1) default).y
          else if ip = 0 then (ser.getD ip default).y
          else if |(ser.getD (ip - 1) default).x - t| < |(ser.getD ip default).x - t| then
            (ser.getD (ip - 1) default).y
          else (ser.getD ip default).y) :=
  findClosestAmount_characterization ser t hs hne

/-- C1, witness: the characterization instantiated on the two-sample
series at query instant 40 (closer to the earlier sample). -/
theorem claim1_nearest_value_query_witness :
    ∃ ip, ip ≤ ([⟨0, 1000, "a"⟩, ⟨100, 1200, "b"⟩] : List ChartPoint).length ∧
      (∀ i, i < ip →
        (([⟨0, 1000, "a"⟩, ⟨100, 1200, "b"⟩] : List ChartPoint).getD i default).x < 40) ∧
      (∀ i, ip ≤ i → i < ([⟨0, 1000, "a"⟩, ⟨100, 1200, "b"⟩] : List ChartPoint).length →
        40 ≤ (([⟨0, 1000, "a"⟩, ⟨100, 1200, "b"⟩] : List ChartPoint).getD i default).x) ∧
      findClosestAmount [⟨0, 1000, "a"⟩, ⟨100, 1200, "b"⟩] 40 =
        some (if ip = ([⟨0, 1000, "a"⟩, ⟨100, 1200, "b"⟩] : List ChartPoint).length then
            (([⟨0, 1000, "a"⟩, ⟨100, 1200, "b"⟩] : List ChartPoint).getD (ip - 1) default).y
          else if ip = 0 then
            (([⟨0, 1000, "a"⟩, ⟨100, 1200, "b"⟩] : List ChartPoint).getD ip default).y
          else if |(([⟨0, 1000, "a"⟩, ⟨100, 1200, "b"⟩] : List ChartPoint).getD (ip - 1) default).x - 40| <
              |(([⟨0, 1000, "a"⟩, ⟨100, 1200, "b"⟩] : List ChartPoint).getD ip default).x - 40| then
            (([⟨0, 1000, "a"⟩, ⟨100, 1200, "b"⟩] : List ChartPoint).getD (ip - 1) default).y
          else (([⟨0, 1000, "a"⟩, ⟨100, 1200, "b"⟩] : List ChartPoint).getD ip default).y) :=
  claim1_nearest_value_query [⟨0, 1000, "a"⟩, ⟨100, 1200, "b"⟩] 40
    (by norm_num [List.pairwise_cons]) (by simp)

/-- C2, counterexample: in absolute margin mode with a null reference
price the suggested purchase price is the configured value itself, not
null — refuting the claim that a null reference yields a null suggestion
in both modes. -/
theorem claim2_absolute_null_reference_counterexample :
    suggestPrice MarginType.absolute 42 none = some 42 ∧
      (some (42 : ℚ) : Option ℚ) ≠ none := by
  exact ⟨rfl, by decide⟩

/-- C2 (amended): a null reference price propagates to a null suggested
price in percent mode only; absolute mode returns the configured value
regardless of the reference.  With a non-null reference, percent mode
yields `reference * (1 - value/100)` and absolute mode yields the value.
The profit row is null whenever the reference is null, in both modes. -/
theorem claim2_suggest_price_characterization :
    (∀ v : ℚ, suggestPrice MarginType.percent v none = none) ∧
      (∀ (v : ℚ) (r : Option ℚ), suggestPrice MarginType.absolute v r = some v) ∧
      (∀ v r : ℚ, suggestPrice MarginType.percent v (some r) = some (r * (1 - v / 100))) ∧
      (∀ (mt : MarginType) (v : ℚ), rowProfit none (suggestPrice mt v none) = none) := by
  refine ⟨fun v => rfl, fun v r => rfl, fun v r => rfl, fun mt v => rfl⟩

/-- C3, counterexample: the numeric timestamp branch compares the signed
value, not the magnitude, against `1e12`: the input `-1e12` has magnitude
`1e12` (not below the threshold, so the claim says it is returned
unchanged), yet the code multiplies it by 1000. -/
theorem claim3_negative_magnitude_counterexample :
    parseTimestampNumeric (-(10 ^ 12)) = -(10 ^ 15) ∧
      ¬ |(-(10 ^ 12) : ℚ)| < 10 ^ 12 ∧ (-(10 ^ 15) : ℚ) ≠ -(10 ^ 12) := by
  refine ⟨by norm_num [parseTimestampNumeric], by norm_num, by norm_num⟩

/-- C3 (amended): for a string that parses fully as the decimal number
`n`, the normalizer returns `n * 1000` when the magnitude of `n` is below
`1e12` or `n` is negative (the signed comparison `n < 1e12` holds for
every negative number, however large its magnitude), and returns `n`
unchanged otherwise. -/
theorem claim3_numeric_timestamp_scaling (n : ℚ) :
    parseTimestampNumeric n = if |n| < 10 ^ 12 ∨ n < 0 then n * 1000 else n := by
  unfold parseTimestampNumeric
  rcases lt_or_le n 0 with hneg | hpos
  · rw [if_pos (lt_trans hneg (by norm_num)), if_pos (Or.inr hneg)]
  · rw [abs_of_nonneg hpos]
    by_cases h : n < 10 ^ 12
    · rw [if_pos h, if_pos (Or.inl h)]
    · rw [if_neg h, if_neg (by push_neg; exact ⟨not_lt.mp h, hpos⟩)]

/-- C4, counterexample: a purchase whose timestamps do not parse (so the
chronological check degrades to valid) and whose `saleTotalPrice` 700 is
finite, but whose `totalPrice` is `Infinity`: the claim demands
`{saleTotal = 700, profit = 700 - totalPrice}`, yet the code returns a
null profit because the difference `700 - Infinity` is not finite — the
two fields are not both null either. -/
theorem claim4_nonfinite_total_price_counterexample :
    computeSaleStats (fun _ => JSNum.nan)
        ⟨"x", "d", some "s", some (JSNum.fin 700), JSNum.inf⟩ =
      (some (JSNum.fin 700), none) ∧
      (none : Option JSNum) ≠ some ((JSNum.fin 700).sub JSNum.inf) := by
  exact ⟨by decide, by decide⟩

/-- C4 (amended): the reconciliation returns
`saleTotal = saleTotalPrice` exactly when the sale is chronologically
valid (a timestamp fails to parse, or both parse and the sale instant is
at or after the purchase instant) and `saleTotalPrice` is finite; the
profit is `saleTotalPrice - totalPrice` exactly when additionally that
difference is finite (which can fail only for a non-finite
`totalPrice`); otherwise the respective field is null.  In particular
the scenario purchase (totalPrice 500, sale dated strictly before the
purchase, saleTotalPrice 700) yields both fields null. -/
theorem claim4_reconciliation_characterization :
    (∀ (parseTs : String → JSNum) (p : PurchaseEvent),
      computeSaleStats parseTs p =
        (if chronValid parseTs p then
          match p.saleTotalPrice with
          | some (JSNum.fin v) =>
            (some (JSNum.fin v),
              if ((JSNum.fin v).sub p.totalPrice).isFinite then
                some ((JSNum.fin v).sub p.totalPrice)
              else none)
          | _ => (none, none)
        else (none, none))) ∧
      computeSaleStats
        (fun s => if s = "2024-01-01T00:00:00Z" then JSNum.fin 1704067200000
          else JSNum.fin 1703980800000)
        ⟨"x", "2024-01-01T00:00:00Z", some "2023-12-31T00:00:00Z",
          some (JSNum.fin 700), JSNum.fin 500⟩ =
      (none, none) := by
  exact ⟨computeSaleStats_characterization, by decide⟩

/-- C5, counterexample: a purchase with unparseable timestamps, finite
`saleTotalPrice` 800 and `NaN` `totalPrice` yields
`{saleTotal = 800, profit = null}` — exactly one of the two fields is
null, refuting the claim that they are only ever null or non-null
together. -/
theorem claim5_fields_not_null_together_counterexample :
    computeSaleStats (fun _ => JSNum.nan)
        ⟨"y", "d2", none, some (JSNum.fin 800), JSNum.nan⟩ =
      (some (JSNum.fin 800), none) ∧
      some (JSNum.fin 800) ≠ (none : Option JSNum) := by
  exact ⟨by decide, by decide⟩

/-- C5 (amended): the reconciliation never returns a non-null profit when
the sale total is null — a null sale total forces a null profit.  (The
converse fails: the sale total can be non-null with a null profit when
the profit difference is not finite.) -/
theorem claim5_profit_null_safety (parseTs : String → JSNum) (p : PurchaseEvent)
    (h : (computeSaleStats parseTs p).1 = none) :
    (computeSaleStats parseTs p).2 = none := by
  rw [computeSaleStats_profit_eq, h]

/-- C5, witness: a chronologically invalid sale has a null sale total,
and the theorem then forces a null profit. -/
theorem claim5_profit_null_safety_witness :
    (computeSaleStats (fun s => if s = "P" then JSNum.fin 100 else JSNum.fin 0)
        ⟨"z", "P", some "S", some (JSNum.fin 700), JSNum.fin 500⟩).1 = none ∧
      (computeSaleStats (fun s => if s = "P" then JSNum.fin 100 else JSNum.fin 0)
        ⟨"z", "P", some "S", some (JSNum.fin 700), JSNum.fin 500⟩).2 = none :=
  ⟨by decide,
    claim5_profit_null_safety (fun s => if s = "P" then JSNum.fin 100 else JSNum.fin 0)
      ⟨"z", "P", some "S", some (JSNum.fin 700), JSNum.fin 500⟩ (by decide)⟩

/-- C6: during the left-to-right sweep, an event joins the open group
exactly when its x is within the threshold of the running average x of
the group's members so far — each group is internally chained to its
running averages, chronologically adjacent groups were separated by more
than the threshold at the moment the later group opened, and the groups
partition the input; the scenario `[100,108,200]` with threshold 15
yields exactly the two clusters `{100,108}` and `{200}`. -/
theorem claim6_sweep_joins_running_average :
    (∀ (t : ℚ) (l : List Position),
      sweepGroups t l = (partitionSweep t l).map grpOf ∧
        (partitionSweep t l).flatten = l ∧
        (∀ g ∈ partitionSweep t l, g ≠ [] ∧ groupOk t g = true) ∧
        boundariesOk t (partitionSweep t l) = true) ∧
      sweepGroups 15
        [⟨100, 0, ⟨"a", "ta", none, none, JSNum.fin 0⟩⟩,
         ⟨108, 0, ⟨"b", "tb", none, none, JSNum.fin 0⟩⟩,
         ⟨200, 0, ⟨"c", "tc", none, none, JSNum.fin 0⟩⟩] =
      [⟨208, 0, 2, 0, [⟨"a", "ta", none, none, JSNum.fin 0⟩,
          ⟨"b", "tb", none, none, JSNum.fin 0⟩]⟩,
       ⟨200, 0, 1, 0, [⟨"c", "tc", none, none, JSNum.fin 0⟩]⟩] :=
  ⟨sweepGroups_partition_spec, by norm_num [sweepGroups, sweepStep]⟩

/-- C6, witness: in the scenario partition, the group of the events at
x = 100 and x = 108 is non-empty and internally within-threshold. -/
theorem claim6_sweep_joins_running_average_witness :
    ([⟨100, 0, ⟨"a", "ta", none, none, JSNum.fin 0⟩⟩,
      ⟨108, 0, ⟨"b", "tb", none, none, JSNum.fin 0⟩⟩] : List Position) ≠ [] ∧
      groupOk 15
        [⟨100, 0, ⟨"a", "ta", none, none, JSNum.fin 0⟩⟩,
         ⟨108, 0, ⟨"b", "tb", none, none, JSNum.fin 0⟩⟩] = true :=
  (claim6_sweep_joins_running_average.1 15
      [⟨100, 0, ⟨"a", "ta", none, none, JSNum.fin 0⟩⟩,
       ⟨108, 0, ⟨"b", "tb", none, none, JSNum.fin 0⟩⟩,
       ⟨200, 0, ⟨"c", "tc", none, none, JSNum.fin 0⟩⟩]).2.2.1
    [⟨100, 0, ⟨"a", "ta", none, none, JSNum.fin 0⟩⟩,
     ⟨108, 0, ⟨"b", "tb", none, none, JSNum.fin 0⟩⟩]
    (by norm_num [partitionSweep, sweepRec, avgX])

/-- Helper: the clustering core conserves the surviving events, as a
permutation (the sort permutes, the sweep partitions). -/
theorem conservation_core (positions : List Position) (area : Area) :
    ((((sweepGroups thresholdPx (positions.mergeSort fun a b => a.x ≤ b.x)).map
        (mkTooltip area)).map PurchaseTooltipGroup.purchases).flatten).Perm
      (positions.map Position.purchase) := by
  have h1 : ((sweepGroups thresholdPx (positions.mergeSort fun a b => a.x ≤ b.x)).map
      (mkTooltip area)).map PurchaseTooltipGroup.purchases =
      (sweepGroups thresholdPx (positions.mergeSort fun a b => a.x ≤ b.x)).map
        GroupAccumulator.purchases := by
    rw [List.map_map]
    rfl
  rw [h1, sweepGroups_eq_partition, List.map_map]
  have h2 : (partitionSweep thresholdPx (positions.mergeSort fun a b => a.x ≤ b.x)).map
      (GroupAccumulator.purchases ∘ grpOf) =
      (partitionSweep thresholdPx (positions.mergeSort fun a b => a.x ≤ b.x)).map
        (List.map Position.purchase) := rfl
  rw [h2, ← List.map_flatten,
    (sweepGroups_partition_spec thresholdPx (positions.mergeSort fun a b => a.x ≤ b.x)).2.1]
  exact (List.mergeSort_perm positions fun a b => a.x ≤ b.x).map Position.purchase

/-- C7, counterexample: with an empty wealth series the tooltip pass
returns no clusters at all, even though a purchase survives the explicit
per-event filtering rules (parseable instant, in range, finite projected
x and y) — so the union of cluster members does not equal the survivors. -/
theorem claim7_empty_series_counterexample :
    recomputeTooltips (fun _ => JSNum.fin 5) [] (fun q => JSNum.fin q)
        (fun q => JSNum.fin q) JSNum.nan JSNum.nan ⟨0, 1000, 0, 1000⟩
        [⟨"a", "d", none, none, JSNum.fin 0⟩] = [] ∧
      (positionsOf (fun _ => JSNum.fin 5) [] (fun q => JSNum.fin q)
        (fun q => JSNum.fin q) JSNum.nan JSNum.nan
        [⟨"a", "d", none, none, JSNum.fin 0⟩]).map Position.purchase =
      [⟨"a", "d", none, none, JSNum.fin 0⟩] :=
  ⟨by decide, by decide⟩

/-- C7 (amended): provided the wealth series is non-empty (with an empty
series the pass returns no clusters regardless of the events), the
multiset union of the member lists of all returned clusters is exactly
the multiset of events that survived the explicit filtering rules: no
survivor is duplicated across clusters and none is lost. -/
theorem claim7_clustering_conservation (parseTs : String → JSNum)
    (kamasSeries : List ChartPoint) (xScale yScale : ℚ → JSNum) (minB maxB : JSNum)
    (area : Area) (purchases : List PurchaseEvent) (hser : kamasSeries ≠ []) :
    (((recomputeTooltips parseTs kamasSeries xScale yScale minB maxB area purchases).map
        PurchaseTooltipGroup.purchases).flatten).Perm
      ((positionsOf parseTs kamasSeries xScale yScale minB maxB purchases).map
        Position.purchase) := by
  unfold recomputeTooltips
  split
  next h =>
    rcases h with hp | hs
    · subst hp
      simp [positionsOf]
    · exact absurd hs hser
  next h =>
    dsimp only
    split
    next hpos =>
      rw [hpos]
      simp
    next hpos =>
      exact conservation_core _ area

/-- C7, witness: a concrete run with one surviving purchase and a
non-empty series. -/
theorem claim7_clustering_conservation_witness :
    (((recomputeTooltips (fun _ => JSNum.fin 5) [⟨0, 100, "r"⟩] (fun q => JSNum.fin q)
        (fun q => JSNum.fin q) JSNum.nan JSNum.nan ⟨0, 1000, 0, 1000⟩
        [⟨"a", "d", none, none, JSNum.fin 0⟩]).map
          PurchaseTooltipGroup.purchases).flatten).Perm
      ((positionsOf (fun _ => JSNum.fin 5) [⟨0, 100, "r"⟩] (fun q => JSNum.fin q)
        (fun q => JSNum.fin q) JSNum.nan JSNum.nan
        [⟨"a", "d", none, none, JSNum.fin 0⟩]).map Position.purchase) :=
  claim7_clustering_conservation (fun _ => JSNum.fin 5) [⟨0, 100, "r"⟩]
    (fun q => JSNum.fin q) (fun q => JSNum.fin q) JSNum.nan JSNum.nan
    ⟨0, 1000, 0, 1000⟩ [⟨"a", "d", none, none, JSNum.fin 0⟩] (by simp)

/-- Helper: a clamped value lies in the clamp interval when the interval
is non-empty. -/
theorem clamp_bounds (lo hi v : ℚ) (h : lo ≤ hi) :
    lo ≤ min (max v lo) hi ∧ min (max v lo) hi ≤ hi :=
  ⟨le_min (le_max_right v lo) h, min_le_right _ _⟩

/-- C8, counterexample: with a plotting area only 10 pixels wide the
horizontal clamp interval `[left+16, right-16] = [16, -6]` is empty and
the produced label position `-6` lies outside it (below `left + 16`) —
the claim's unconditional in-bounds guarantee fails for such view
bounds. -/
theorem claim8_narrow_area_counterexample :
    (recomputeTooltips (fun _ => JSNum.fin 5) [⟨0, 100, "r"⟩] (fun q => JSNum.fin q)
        (fun q => JSNum.fin q) JSNum.nan JSNum.nan ⟨0, 10, 0, 10⟩
        [⟨"a", "d", none, none, JSNum.fin 0⟩]).map PurchaseTooltipGroup.tooltipLeft =
      [-6] ∧ ¬ ((0 : ℚ) + 16 ≤ -6) := by
  constructor
  · simp only [recomputeTooltips, positionsOf, findClosestAmount, bsearchGo,
      sweepGroups, sweepStep, mkTooltip, thresholdPx, JSNum.isFinite, JSNum.toQ,
      List.filterMap_cons, List.filterMap_nil, List.mergeSort_singleton]
    norm_num [sweepStep, mkTooltip, Function.comp]
  · norm_num

/-- C8 (amended): every produced label position lies within the claimed
clamp intervals provided those intervals are non-empty — the area is at
least 32 pixels wide, and tall enough for the group's estimated label
height; for smaller areas the clamp returns the interval's upper end,
which lies outside the then-empty interval. -/
theorem claim8_label_positions_clamped (parseTs : String → JSNum)
    (kamasSeries : List ChartPoint) (xScale yScale : ℚ → JSNum) (minB maxB : JSNum)
    (area : Area) (purchases : List PurchaseEvent) :
    ∀ g ∈ recomputeTooltips parseTs kamasSeries xScale yScale minB maxB area purchases,
      area.left + 16 ≤ area.right - 16 →
      area.top + 8 ≤ area.bottom - ((g.purchases.length : ℚ) * 22 + 18) - 8 →
      (area.left + 16 ≤ g.tooltipLeft ∧ g.tooltipLeft ≤ area.right - 16 ∧
        area.top + 8 ≤ g.tooltipTop ∧
        g.tooltipTop ≤ area.bottom - ((g.purchases.length : ℚ) * 22 + 18) - 8) := by
  intro g hg h1 h2
  unfold recomputeTooltips at hg
  split at hg
  · simp at hg
  · dsimp only at hg
    split at hg
    · simp at hg
    · obtain ⟨grp, hgrp, rfl⟩ := List.mem_map.mp hg
      refine ⟨(clamp_bounds _ _ _ h1).1, (clamp_bounds _ _ _ h1).2,
        (clamp_bounds _ _ _ h2).1, (clamp_bounds _ _ _ h2).2⟩

/-- C8, witness: a 1000-pixel area holds the produced label of a
one-purchase cluster within both clamp intervals. -/
theorem claim8_label_positions_clamped_witness :
    (⟨"a-d", 5, 100, 16, 60, [⟨"a", "d", none, none, JSNum.fin 0⟩]⟩ :
        PurchaseTooltipGroup) ∈
      recomputeTooltips (fun _ => JSNum.fin 5) [⟨0, 100, "r"⟩] (fun q => JSNum.fin q)
        (fun q => JSNum.fin q) JSNum.nan JSNum.nan ⟨0, 1000, 0, 1000⟩
        [⟨"a", "d", none, none, JSNum.fin 0⟩] ∧
      ((0 : ℚ) + 16 ≤
        (⟨"a-d", 5, 100, 16, 60, [⟨"a", "d", none, none, JSNum.fin 0⟩]⟩ :
          PurchaseTooltipGroup).tooltipLeft ∧
        (⟨"a-d", 5, 100, 16, 60, [⟨"a", "d", none, none, JSNum.fin 0⟩]⟩ :
          PurchaseTooltipGroup).tooltipLeft ≤ (1000 : ℚ) - 16 ∧
        (0 : ℚ) + 8 ≤
        (⟨"a-d", 5, 100, 16, 60, [⟨"a", "d", none, none, JSNum.fin 0⟩]⟩ :
          PurchaseTooltipGroup).tooltipTop ∧
        (⟨"a-d", 5, 100, 16, 60, [⟨"a", "d", none, none, JSNum.fin 0⟩]⟩ :
          PurchaseTooltipGroup).tooltipTop ≤
        (1000 : ℚ) -
          (((⟨"a-d", 5, 100, 16, 60, [⟨"a", "d", none, none, JSNum.fin 0⟩]⟩ :
            PurchaseTooltipGroup).purchases.length : ℚ) * 22 + 18) - 8) := by
  have hout : recomputeTooltips (fun _ => JSNum.fin 5) [⟨0, 100, "r"⟩]
      (fun q => JSNum.fin q) (fun q => JSNum.fin q) JSNum.nan JSNum.nan
      ⟨0, 1000, 0, 1000⟩ [⟨"a", "d", none, none, JSNum.fin 0⟩] =
      [⟨"a-d", 5, 100, 16, 60, [⟨"a", "d", none, none, JSNum.fin 0⟩]⟩] := by
    simp only [recomputeTooltips, positionsOf, findClosestAmount, bsearchGo,
      sweepGroups, sweepStep, mkTooltip, thresholdPx, JSNum.isFinite, JSNum.toQ,
      List.filterMap_cons, List.filterMap_nil, List.mergeSort_singleton]
    norm_num [sweepStep, mkTooltip, String.intercalate, String.intercalate.go]
    decide
  have hmem : (⟨"a-d", 5, 100, 16, 60, [⟨"a", "d", none, none, JSNum.fin 0⟩]⟩ :
      PurchaseTooltipGroup) ∈
      recomputeTooltips (fun _ => JSNum.fin 5) [⟨0, 100, "r"⟩] (fun q => JSNum.fin q)
        (fun q => JSNum.fin q) JSNum.nan JSNum.nan ⟨0, 1000, 0, 1000⟩
        [⟨"a", "d", none, none, JSNum.fin 0⟩] := by
    rw [hout]
    exact List.mem_singleton.mpr rfl
  exact ⟨hmem,
    claim8_label_positions_clamped (fun _ => JSNum.fin 5) [⟨0, 100, "r"⟩]
      (fun q => JSNum.fin q) (fun q => JSNum.fin q) JSNum.nan JSNum.nan
      ⟨0, 1000, 0, 1000⟩ [⟨"a", "d", none, none, JSNum.fin 0⟩] _ hmem
      (by norm_num) (by norm_num)⟩

/-- C9: the aggregate total profit is the sum of the non-null profits of
the reconciled purchases; purchases whose reconciliation yields a null
profit contribute nothing to the sum. -/
theorem claim9_total_profit_sum (parseTs : String → JSNum)
    (purchases : List PurchaseEvent) :
    totalProfit parseTs purchases =
      JSNum.fin
        (((purchases.filterMap fun p => (computeSaleStats parseTs p).2).map
          JSNum.toQ).sum) :=
  totalProfit_eq_sum parseTs purchases

/-- Helper: the accumulator of `String.intercalate.go` only grows. -/
theorem intercalate_go_length (sep : String) :
    ∀ (l : List String) (acc : String),
      acc.length ≤ (String.intercalate.go acc sep l).length := by
  intro l
  induction l with
  | nil => intro acc; exact le_refl _
  | cons a as ih =>
    intro acc
    calc acc.length ≤ (acc ++ sep ++ a).length := by
          rw [String.length_append, String.length_append]
          omega
      _ ≤ (String.intercalate.go (acc ++ sep ++ a) sep as).length := ih _

/-- Helper: intercalating a list that starts with a non-empty string is
non-empty. -/
theorem intercalate_ne_empty (sep s : String) (l : List String)
    (hs : 0 < s.length) : String.intercalate sep (s :: l) ≠ "" := by
  intro h
  have hlen : s.length ≤ (String.intercalate sep (s :: l)).length :=
    intercalate_go_length sep l s
  rw [h] at hlen
  have hz : ("" : String).length = 0 := rfl
  rw [hz] at hlen
  omega

theorem mkTooltip_id (area : Area) (group : GroupAccumulator) :
    (mkTooltip area group).id =
      (if String.intercalate "|"
          (group.purchases.map fun p => p.id ++ "-" ++ p.datetime) = "" then
        toString (group.xSum / (group.count : ℚ))
      else
        String.intercalate "|"
          (group.purchases.map fun p => p.id ++ "-" ++ p.datetime)) := rfl

/-- C10: every cluster returned by the clustering pass has at least one
member; its identity string — the members' `id-datetime` pairs joined
with a bar — is therefore never empty, so the fallback to the anchor's x
coordinate as the id is unreachable; and the cluster's anchor is the
arithmetic mean of its members' projected positions. -/
theorem claim10_cluster_identity (parseTs : String → JSNum)
    (kamasSeries : List ChartPoint) (xScale yScale : ℚ → JSNum) (minB maxB : JSNum)
    (area : Area) (purchases : List PurchaseEvent) :
    ∀ g ∈ recomputeTooltips parseTs kamasSeries xScale yScale minB maxB area purchases,
      ∃ ps : List Position, ps ≠ [] ∧
        g.purchases = ps.map Position.purchase ∧
        g.anchorX = (ps.map Position.x).sum / (ps.length : ℚ) ∧
        g.anchorY = (ps.map Position.y).sum / (ps.length : ℚ) ∧
        g.id = String.intercalate "|"
          (ps.map fun q => q.purchase.id ++ "-" ++ q.purchase.datetime) ∧
        g.id ≠ "" := by
  intro g hg
  unfold recomputeTooltips at hg
  split at hg
  · simp at hg
  · dsimp only at hg
    split at hg
    · simp at hg
    · obtain ⟨grp, hgrp, rfl⟩ := List.mem_map.mp hg
      rw [sweepGroups_eq_partition] at hgrp
      obtain ⟨ps, hps, rfl⟩ := List.mem_map.mp hgrp
      have hne : ps ≠ [] := ((sweepGroups_partition_spec thresholdPx _).2.2.1 ps hps).1
      have hmap : (grpOf ps).purchases.map (fun p => p.id ++ "-" ++ p.datetime) =
          ps.map fun q => q.purchase.id ++ "-" ++ q.purchase.datetime := by
        show (ps.map Position.purchase).map (fun p => p.id ++ "-" ++ p.datetime) = _
        rw [List.map_map]
        rfl
      have hstr : String.intercalate "|"
          (ps.map fun q => q.purchase.id ++ "-" ++ q.purchase.datetime) ≠ "" := by
        obtain ⟨p0, rest, rfl⟩ := List.exists_cons_of_ne_nil hne
        rw [List.map_cons]
        apply intercalate_ne_empty
        rw [String.length_append, String.length_append]
        have hdash : ("-" : String).length = 1 := rfl
        omega
      refine ⟨ps, hne, rfl, rfl, rfl, ?_, ?_⟩
      · rw [mkTooltip_id, hmap, if_neg hstr]
      · rw [mkTooltip_id, hmap, if_neg hstr]
        exact hstr

/-- C10, witness: a concrete run producing one single-member cluster
whose id is the member's `id-datetime` pair and whose anchor is the
member's position. -/
theorem claim10_cluster_identity_witness :
    (⟨"b-e", 7, 100, 16, 60, [⟨"b", "e", none, none, JSNum.fin 0⟩]⟩ :
        PurchaseTooltipGroup) ∈
      recomputeTooltips (fun _ => JSNum.fin 7) [⟨0, 100, "r"⟩] (fun q => JSNum.fin q)
        (fun q => JSNum.fin q) JSNum.nan JSNum.nan ⟨0, 1000, 0, 1000⟩
        [⟨"b", "e", none, none, JSNum.fin 0⟩] ∧
      (∃ ps : List Position, ps ≠ [] ∧
        (⟨"b-e", 7, 100, 16, 60, [⟨"b", "e", none, none, JSNum.fin 0⟩]⟩ :
          PurchaseTooltipGroup).purchases = ps.map Position.purchase ∧
        (⟨"b-e", 7, 100, 16, 60, [⟨"b", "e", none, none, JSNum.fin 0⟩]⟩ :
          PurchaseTooltipGroup).anchorX = (ps.map Position.x).sum / (ps.length : ℚ) ∧
        (⟨"b-e", 7, 100, 16, 60, [⟨"b", "e", none, none, JSNum.fin 0⟩]⟩ :
          PurchaseTooltipGroup).anchorY = (ps.map Position.y).sum / (ps.length : ℚ) ∧
        (⟨"b-e", 7, 100, 16, 60, [⟨"b", "e", none, none, JSNum.fin 0⟩]⟩ :
          PurchaseTooltipGroup).id = String.intercalate "|"
          (ps.map fun q => q.purchase.id ++ "-" ++ q.purchase.datetime) ∧
        (⟨"b-e", 7, 100, 16, 60, [⟨"b", "e", none, none, JSNum.fin 0⟩]⟩ :
          PurchaseTooltipGroup).id ≠ "") := by
  have hout : recomputeTooltips (fun _ => JSNum.fin 7) [⟨0, 100, "r"⟩]
      (fun q => JSNum.fin q) (fun q => JSNum.fin q) JSNum.nan JSNum.nan
      ⟨0, 1000, 0, 1000⟩ [⟨"b", "e", none, none, JSNum.fin 0⟩] =
      [⟨"b-e", 7, 100, 16, 60, [⟨"b", "e", none, none, JSNum.fin 0⟩]⟩] := by
    simp only [recomputeTooltips, positionsOf, findClosestAmount, bsearchGo,
      sweepGroups, sweepStep, mkTooltip, thresholdPx, JSNum.isFinite, JSNum.toQ,
      List.filterMap_cons, List.filterMap_nil, List.mergeSort_singleton]
    norm_num [sweepStep, mkTooltip, String.intercalate, String.intercalate.go]
    decide
  have hmem : (⟨"b-e", 7, 100, 16, 60, [⟨"b", "e", none, none, JSNum.fin 0⟩]⟩ :
      PurchaseTooltipGroup) ∈
      recomputeTooltips (fun _ => JSNum.fin 7) [⟨0, 100, "r"⟩] (fun q => JSNum.fin q)
        (fun q => JSNum.fin q) JSNum.nan JSNum.nan ⟨0, 1000, 0, 1000⟩
        [⟨"b", "e", none, none, JSNum.fin 0⟩] := by
    rw [hout]
    exact List.mem_singleton.mpr rfl
  exact ⟨hmem,
    claim10_cluster_identity (fun _ => JSNum.fin 7) [⟨0, 100, "r"⟩]
      (fun q => JSNum.fin q) (fun q => JSNum.fin q) JSNum.nan JSNum.nan
      ⟨0, 1000, 0, 1000⟩ [⟨"b", "e", none, none, JSNum.fin 0⟩] _ hmem⟩
